import Mathlib

/-!
Shallow embedding of `swift/experimental/sampling/sampling.py`
(the best-of-N rejection-sampling / reward-aggregation component).

Conventions of the embedding:
* Python floats are modelled as exact rationals (`ℚ`); the literal `1e-5`
  of the source becomes `1 / 100000`.
* A chat message dict `{'role': r, 'content': c}` is a `Message`;
  `content = None` is `Option.none`.
* Reward models and the inference engine are opaque collaborators; they are
  modelled as oracle functions supplying, respectively, the parsed float
  scores and the generated texts.
* `np.argsort` is modelled by a deterministic (stable, insertion-based)
  ascending sort of indices; no theorem below depends on tie order, and the
  source's sort leaves tie order among equal scores unspecified anyway.
-/

instance {ε α : Type} [DecidableEq ε] [DecidableEq α] : DecidableEq (Except ε α) :=
  fun a b =>
    match a, b with
    | .error e, .error f =>
      match decEq e f with
      | isTrue h => isTrue (by rw [h])
      | isFalse h => isFalse (fun c => h (Except.error.inj c))
    | .ok x, .ok y =>
      match decEq x y with
      | isTrue h => isTrue (by rw [h])
      | isFalse h => isFalse (fun c => h (Except.ok.inj c))
    | .error _, .ok _ => isFalse (fun c => Except.noConfusion c)
    | .ok _, .error _ => isFalse (fun c => Except.noConfusion c)

namespace SamplingPy

/-- A chat message: `{'role': ..., 'content': ...}`; `content is None`
is `Option.none`. -/
structure Message where
  role : String
  content : Option String
deriving DecidableEq, Repr

abbrev Messages := List Message

/-- The fields of `SamplingArguments` that `sampling.py` reads.
(The argument class itself lives outside the embedded file; only the
fields used by `sampling.py` are embedded.)  `file_stem` stands for the
source's output-file name stem argument. -/
structure SamplingArgs where
  system : Option String
  num_return_sequences : Nat
  n_best_to_keep : Nat
  easy_query_threshold : ℚ
  output_dir : String
  file_stem : String
  override_exist_file : Bool
  num_sampling_per_gpu_batch_size : Nat
  num_sampling_per_gpu_batches : Option Nat
deriving Repr

/-- Model of `np.min` on a nonempty list (0 as an unused default on `[]`,
where the source would raise). -/
def listMin : List ℚ → ℚ
  | [] => 0
  | [x] => x
  | x :: y :: xs => min x (listMin (y :: xs))

/-- Model of `np.max` on a nonempty list (0 as an unused default on `[]`). -/
def listMax : List ℚ → ℚ
  | [] => 0
  | [x] => x
  | x :: y :: xs => max x (listMax (y :: xs))

/-- The inner `normalize` of `_get_reward` (sampling.py lines 38-48):
min-max scaling with the `min == max` degenerate branch. -/
def normalize (arr : List ℚ) : List ℚ :=
  let min_val := listMin arr
  let max_val := listMax arr
  if min_val = max_val then
    if min_val = 0 then arr.map (fun _ => 0)
    else arr.map (fun _ => min 1 min_val)
  else
    arr.map (fun x => (x - min_val) / (max_val - min_val + 1 / 100000))

/-- The function `_get_reward` (sampling.py lines 30-50), at the level of the parsed
float scores `arr`: returns the normalized scores and the threshold mask
(`a >= threshold` per element; all-True when no threshold is given). -/
def getReward (arr : List ℚ) (threshold : Option ℚ) : List ℚ × List Bool :=
  let mask := match threshold with
    | none => arr.map (fun _ => true)
    | some t => arr.map (fun a => decide (t ≤ a))
  (normalize arr, mask)

/-- Python `int()` applied to a rational: truncation toward zero. -/
def truncInt (q : ℚ) : ℤ := Int.tdiv q.num (q.den : ℤ)

/-- Model of `np.argsort(score)`: the indices `0 .. score.length - 1` sorted
ascending by the score they point to (stable). -/
def argsortAsc (score : List ℚ) : List Nat :=
  List.insertionSort (fun i j => score.getD i 0 ≤ score.getD j 0) (List.range score.length)

/-- The combined score of sampling.py line 173:
`np.array(prm_score) + np.array(orm_score * 10)`, elementwise. -/
def combinedScore (prm_score orm_score : List ℚ) : List ℚ :=
  List.zipWith (fun p o => p + o * 10) prm_score orm_score

/-- Result of the rank-and-select step of `do_sample`. -/
structure Selection where
  neg_index : Nat
  pos_indexes : List Nat
deriving DecidableEq, Repr

/-- Lines 173-177 of sampling.py: combine the two normalized scores, sort
indices descending (`np.argsort(score)[::-1]`), take the head as
`neg_index`, take the first `n_best_to_keep` as `pos_indexes` and filter
them by the mask. -/
def rankAndSelect (prm_score orm_score : List ℚ) (mask : List Bool) (n_best : Nat) :
    Selection :=
  let score := combinedScore prm_score orm_score
  let sorted_indices := (argsortAsc score).reverse
  { neg_index := sorted_indices.headD 0
    pos_indexes := (sorted_indices.take n_best).filter (fun i => mask.getD i false) }

/-- The assignment `messages[-1]['content'] = c` on a message list. -/
def setLastContent (ms : Messages) (c : String) : Messages :=
  match ms with
  | [] => []
  | [m] => [{ m with content := some c }]
  | m :: rest => m :: setLastContent rest c

/-- One output line of `do_sample`:
`{'messages': ..., 'rejected_response': ...}`. -/
structure PrefPair where
  messages : Messages
  rejected_response : String
deriving DecidableEq, Repr

/-- Lines 151-189 of sampling.py for one record, at the level of the raw
reward scores: `ormRaw`/`prmRaw` are the floats parsed from the two
reward models' responses on the record's N+1 scoring requests (the N
decoded candidates plus the ground truth), `batchDecoded` is the record's
group of decoded candidates, `messages` is the record's original
`messages` list.  Mirrors the source exactly: normalization via
`_get_reward` (with no threshold passed for either model, lines 166-167),
the `any(score > 0)` guard on the *normalized* orm scores (line 169,
a bare `raise`, modelled as `Except.error ()`), argsort-descending
selection (lines 173-177), the easy-query `continue` (line 182, with the
`int()` truncation), and one emitted pair per surviving positive
(lines 184-189). -/
def doSampleRecord (args : SamplingArgs) (messages : Messages)
    (batchDecoded : List String) (groundTruth : String)
    (ormRaw prmRaw : List ℚ) : Except Unit (List PrefPair) :=
  let orm_score := (getReward ormRaw none).1
  let prm := getReward prmRaw none
  if ¬ (orm_score.any (fun s => decide (0 < s))) then
    Except.error ()
  else
    let sel := rankAndSelect prm.1 orm_score prm.2 args.n_best_to_keep
    let batch_decoded := batchDecoded ++ [groundTruth]
    if truncInt ((args.num_return_sequences : ℚ) * args.easy_query_threshold) ≤
        (orm_score.countP (fun s => decide (0 < s)) : ℤ) - 1 then
      Except.ok []
    else
      let negative := batch_decoded.getD sel.neg_index ("")
      Except.ok (sel.pos_indexes.map (fun i =>
        { messages := setLastContent messages (batch_decoded.getD i (""))
          rejected_response := negative }))

/-- One input record of `do_sample`, at the level of the reward scores:
its `messages`, its group of decoded candidates, its `ground_truth` list,
and the floats parsed from the two reward models on its N+1 scoring
requests. -/
structure RecordData where
  messages : Messages
  batchDecoded : List String
  groundTruths : List String
  ormRaw : List ℚ
  prmRaw : List ℚ

/-- The per-record loop of `do_sample` (lines 151-189): records are
processed in order with running index `i`; the ground truth used for
record `i` is `ground_truth[i]` (lines 161 and 163); a `raise` inside any
record aborts the whole call, so no pairs at all are returned. -/
def doSampleLoop (args : SamplingArgs) : Nat → List RecordData → Except Unit (List PrefPair)
  | _, [] => Except.ok []
  | i, r :: rest =>
    match doSampleRecord args r.messages r.batchDecoded (r.groundTruths.getD i ("")) r.ormRaw r.prmRaw with
    | Except.error e => Except.error e
    | Except.ok ps =>
      match doSampleLoop args (i + 1) rest with
      | Except.error e => Except.error e
      | Except.ok qs => Except.ok (ps ++ qs)

/-- The method `do_sample` over a whole sub-batch, at the level of the reward scores. -/
def doSample (args : SamplingArgs) (data : List RecordData) : Except Unit (List PrefPair) :=
  doSampleLoop args 0 data

/-! Request construction and response grouping (lines 120-149) -/

/-- Python truthiness of `self.args.system` (`if self.args.system:`):
`None` and the empty string are falsy. -/
def systemTruthy (args : SamplingArgs) : Option String :=
  match args.system with
  | none => none
  | some s => if s = "" then none else some s

/-- Lines 124-128: override the content of a leading system message, or
insert a fresh system message at the front.  (On an empty message list the
source would raise `IndexError`; that corner is unused below.) -/
def applySystem (args : SamplingArgs) (ms : Messages) : Messages :=
  match systemTruthy args with
  | none => ms
  | some sys =>
    match ms with
    | [] => [⟨"system", some sys⟩]
    | m :: rest =>
      if m.role = "system" then { m with content := some sys } :: rest
      else ⟨"system", some sys⟩ :: m :: rest

/-- Lines 129-130: drop a trailing assistant turn whose content is null. -/
def stripTrailingNullAssistant (ms : Messages) : Messages :=
  match ms.getLast? with
  | some m => if m.role = "assistant" ∧ m.content = none then ms.dropLast else ms
  | none => ms

/-- The conversation carried by every generation request of one record
(lines 123-131). -/
def buildInferMessages (args : SamplingArgs) (row : Messages) : Messages :=
  stripTrailingNullAssistant (applySystem args row)

/-- Lines 121-133: the flattened request list for the whole sub-batch —
`num_return_sequences` copies per record, in record order. -/
def buildRequests (args : SamplingArgs) (data : List Messages) : List Messages :=
  data.flatMap (fun row => List.replicate args.num_return_sequences (buildInferMessages args row))

/-- Lines 144-149: split the flat response list back into per-record
groups of `num_return_sequences` (`batch_decoded_all[i][j] = resp_list[i*n+j]`). -/
def groupResponses (resps : List String) (n : Nat) : List (List String) :=
  (List.range (resps.length / n)).map (fun i =>
    (List.range n).map (fun j => resps.getD (i * n + j) ""))

/-! File-system model for `run_sampling` / `run` (lines 192-239) -/

/-- A file system: a set of existing directories and of files with
contents. -/
structure FileSystem where
  dirs : List String
  files : List (String × String)
deriving DecidableEq, Repr

def pathJoin (a b : String) : String := a ++ "/" ++ b

/-- Model of `os.makedirs(d, exist_ok=True)`. -/
def makedirsExistOk (fs : FileSystem) (d : String) : FileSystem :=
  if d ∈ fs.dirs then fs else { fs with dirs := d :: fs.dirs }

/-- Model of `os.makedirs(d)` with the default `exist_ok=False`: raises
`FileExistsError` when the directory already exists. -/
def makedirs (fs : FileSystem) (d : String) : Except String FileSystem :=
  if d ∈ fs.dirs then Except.error ("FileExistsError")
  else Except.ok { fs with dirs := d :: fs.dirs }

def fileExists (fs : FileSystem) (p : String) : Bool :=
  fs.files.any (fun f => f.1 = p)

/-- Model of `open(p, 'w')` followed by `writelines`: truncate and write. -/
def writeFile (fs : FileSystem) (p c : String) : FileSystem :=
  { fs with files := (p, c) :: fs.files.filter (fun f => ¬ f.1 = p) }

/-- The file-system effect of `SwiftSampling.__init__` (line 60):
`os.makedirs(self.args.output_dir, exist_ok=True)`. -/
def initEffect (args : SamplingArgs) (fs : FileSystem) : FileSystem :=
  makedirsExistOk fs args.output_dir

/-- The method `run_sampling` (lines 192-212) at file-system level; `dumped`
abstracts the concatenation of the generated JSON lines.  When the output
file already exists and `override_exist_file` is false the method returns
before doing anything; otherwise the file is truncated and rewritten. -/
def run_samplingFS (args : SamplingArgs) (dumped : String) (fs : FileSystem) : FileSystem :=
  let iter_file := pathJoin args.output_dir (args.file_stem ++ "_sampling.jsonl")
  if fileExists fs iter_file && !args.override_exist_file then fs
  else writeFile fs iter_file dumped

/-- The method `run` (lines 214-222, single-process branch) at file-system level:
line 215 is `os.makedirs(self.args.output_dir)` with `exist_ok` left at
its default `False`. -/
def runFS (args : SamplingArgs) (dumped : String) (fs : FileSystem) : Except String FileSystem :=
  match makedirs fs args.output_dir with
  | Except.error e => Except.error e
  | Except.ok fs1 => Except.ok (run_samplingFS args dumped fs1)

/-! Sub-batch iteration (lines 198-209) -/

/-- Line 201: `total_iters = int(dataset_len // num_sampling_per_gpu_batch_size)`. -/
def totalIters (datasetLen size : Nat) : Nat := datasetLen / size

/-- Lines 202-203: the number of loop iterations actually run. -/
def effectiveBatches (requested : Option Nat) (total : Nat) : Nat :=
  match requested with
  | none => total
  | some r => if total < r then total else r

/-- Lines 207-208: the index expression passed to `dataset[...]` on
iteration `i`.  The source writes
`dataset[num_sampling_per_gpu_batches*_index, num_sampling_per_gpu_batches*(_index+1)]`:
the *count of sub-batches* is the stride, and the comma makes the index a
TUPLE of two row positions, not a slice. -/
def subBatchIndexPair (batches i : Nat) : Nat × Nat := (batches * i, batches * (i + 1))

/-- The sequence of `dataset[...]` index pairs issued by the loop of
`run_sampling` (lines 205-208). -/
def runSamplingAccesses (datasetLen size : Nat) (requested : Option Nat) : List (Nat × Nat) :=
  let b := effectiveBatches requested (totalIters datasetLen size)
  (List.range b).map (fun i => subBatchIndexPair b i)

/-! Multi-process fan-out (lines 109-118 and 223-239) -/

/-- Python `range(a, b)`. -/
def pyRange (a b : Nat) : List Nat := List.range' a (b - a)

/-- The method `_get_dataset` (lines 109-118): the row indices selected for worker
`cur` out of `total` (`dataset.select(range(piece_len*cur, piece_len*(cur+1)))`). -/
def datasetShard (datasetLen cur total : Nat) : List Nat :=
  pyRange ((datasetLen / total) * cur) ((datasetLen / total) * (cur + 1))

/-- One spawned child of `run`: its process index, its GPU list
(`range(dev_per_proc*proc, dev_per_proc*(proc+1))`) and its `DATA_RANGE`
pair `(proc, nproc)` (lines 226-234). -/
structure Child where
  procIndex : Nat
  gpus : List Nat
  dataRange : Nat × Nat
deriving DecidableEq, Repr

/-- The children spawned by the multi-process branch of `run` (lines
224-236).  The loop header at line 226 is `for proc in range(0, dev_count, )`:
it iterates over the *device count*, not over `nproc`. -/
def spawnChildren (devCount nproc : Nat) : List Child :=
  let devPerProc := devCount / nproc
  (List.range devCount).map (fun proc =>
    { procIndex := proc
      gpus := pyRange (devPerProc * proc) (devPerProc * (proc + 1))
      dataRange := (proc, nproc) })

/-! Heap model of `do_sample` (lines 120-190), for the frame property

Python message lists are mutable objects; to state that `do_sample` never
mutates its input we model the message lists of the input records as cells
of a store, addressed by `Ref`s.  `deepcopy` allocates a fresh cell; every
in-place edit of the source (`messages[0]['content'] = ...`,
`messages.insert(0, ...)`, `messages.append(...)`,
`messages[-1]['content'] = ...`) is a write to the cell it targets.  Since
the only cells the source ever edits are fresh deep copies, every edit in
the model is a write to a freshly allocated cell.  Request objects that
are only ever read after construction are carried as plain values. -/

abbrev Ref := Nat

structure Store where
  cells : List Messages
deriving Repr

def readRef (s : Store) (r : Ref) : Messages := s.cells.getD r []

def allocRef (s : Store) (v : Messages) : Store × Ref :=
  ({ cells := s.cells ++ [v] }, s.cells.length)

def writeRef (s : Store) (r : Ref) (v : Messages) : Store :=
  { cells := s.cells.set r v }

/-- The Python pattern `m = deepcopy(x); <in-place edits of m>`:
allocate a fresh copy of the cell at `r`, then overwrite it with `f` of
its value.  Returns the new store and the fresh ref. -/
def copyAndSet (s : Store) (r : Ref) (f : Messages → Messages) : Store × Ref :=
  let a := allocRef s (readRef s r)
  (writeRef a.1 a.2 (f (readRef a.1 a.2)), a.2)

/-- Lines 122-131 for one row: deep-copy the row's messages, apply the
system-prompt edit to the copy, and return the (value-level) request
conversation after stripping a trailing null-content assistant turn. -/
def prepRowH (args : SamplingArgs) (s : Store) (r : Ref) : Store × Messages :=
  let c := copyAndSet s r (applySystem args)
  (c.1, stripTrailingNullAssistant (readRef c.1 c.2))

/-- Lines 121-133: the request-building loop over all rows. -/
def prepRowsH (args : SamplingArgs) (s : Store) : List Ref → Store × List Messages
  | [] => (s, [])
  | r :: rest =>
    let c := prepRowH args s r
    let next := prepRowsH args c.1 rest
    (next.1, List.replicate args.num_return_sequences c.2 ++ next.2)

/-- The `messages[-1]['role'] != 'assistant'` test of line 153. -/
def lastRoleIsAssistant (ms : Messages) : Bool :=
  match ms.getLast? with
  | some m => m.role = "assistant"
  | none => false

/-- Lines 156-165: for each text, deep-copy the base conversation and fill
the final turn's content with it, collecting the resulting request
conversations. -/
def copyFillH (s : Store) (base : Ref) : List String → Store × List Messages
  | [] => (s, [])
  | t :: rest =>
    let c := copyAndSet s base (fun v => setLastContent v t)
    let next := copyFillH c.1 base rest
    (next.1, readRef c.1 c.2 :: next.2)

/-- Lines 186-189: one emitted pair per positive, each built by
deep-copying the record's original messages and filling the final turn. -/
def emitPairsH (s : Store) (r : Ref) (negative : String) : List String → Store × List PrefPair
  | [] => (s, [])
  | p :: rest =>
    let c := copyAndSet s r (fun v => setLastContent v p)
    let next := emitPairsH c.1 r negative rest
    (next.1, { messages := readRef c.1 c.2, rejected_response := negative } :: next.2)

/-- An input record of the heap-level `do_sample`: the ref of its mutable
`messages` list and its `ground_truth` list. -/
structure HRecord where
  msgsRef : Ref
  groundTruths : List String

/-- Lines 151-189 for one record, heap level.  `ormM`/`prmM` yield the
floats parsed from the reward models on the N+1 scoring conversations. -/
def scoreRecordH (args : SamplingArgs) (ormM prmM : List Messages → List ℚ)
    (s : Store) (rec : HRecord) (i : Nat) (batchDecoded : List String) :
    Store × Except Unit (List PrefPair) :=
  let c := copyAndSet s rec.msgsRef
    (fun v => if lastRoleIsAssistant v then v else v ++ [⟨"assistant", none⟩])
  let gt := rec.groundTruths.getD i ("")
  let fill := copyFillH c.1 c.2 (batchDecoded ++ [gt])
  let ormRaw := ormM fill.2
  let prmRaw := prmM fill.2
  let orm_score := (getReward ormRaw none).1
  let prm := getReward prmRaw none
  if ¬ (orm_score.any (fun x => decide (0 < x))) then
    (fill.1, Except.error ())
  else
    let sel := rankAndSelect prm.1 orm_score prm.2 args.n_best_to_keep
    let batch_decoded := batchDecoded ++ [gt]
    if truncInt ((args.num_return_sequences : ℚ) * args.easy_query_threshold) ≤
        (orm_score.countP (fun x => decide (0 < x)) : ℤ) - 1 then
      (fill.1, Except.ok [])
    else
      let negative := batch_decoded.getD sel.neg_index ("")
      let em := emitPairsH fill.1 rec.msgsRef negative
        (sel.pos_indexes.map (fun idx => batch_decoded.getD idx ("")))
      (em.1, Except.ok em.2)

/-- The loop of lines 151-189 over records and their decoded groups. -/
def scoreLoopH (args : SamplingArgs) (ormM prmM : List Messages → List ℚ)
    (s : Store) (i : Nat) : List (HRecord × List String) → Store × Except Unit (List PrefPair)
  | [] => (s, Except.ok [])
  | (rec, group) :: rest =>
    let one := scoreRecordH args ormM prmM s rec i group
    match one.2 with
    | Except.error e => (one.1, Except.error e)
    | Except.ok ps =>
      let next := scoreLoopH args ormM prmM one.1 (i + 1) rest
      match next.2 with
      | Except.error e => (next.1, Except.error e)
      | Except.ok qs => (next.1, Except.ok (ps ++ qs))

/-- The method `do_sample` (lines 120-190), heap level: build the flattened request
list, run the (order-preserving) engine on it, regroup, then run the
scoring/selection loop. -/
def doSampleH (args : SamplingArgs) (engine : Messages → String)
    (ormM prmM : List Messages → List ℚ) (s : Store) (records : List HRecord) :
    Store × Except Unit (List PrefPair) :=
  let reqs := prepRowsH args s (records.map (fun r => r.msgsRef))
  let resp := reqs.2.map engine
  let groups := groupResponses resp args.num_return_sequences
  scoreLoopH args ormM prmM reqs.1 0 (records.zip groups)

/-- The arguments of the spec's worked end-to-end example: two candidates
per prompt, one best kept.  `easy_query_threshold = 1` keeps the
easy-query skip out of the example's way. -/
def exArgs : SamplingArgs :=
  { system := none, num_return_sequences := 2, n_best_to_keep := 1,
    easy_query_threshold := 1, output_dir := "output", file_stem := "f",
    override_exist_file := false, num_sampling_per_gpu_batch_size := 1,
    num_sampling_per_gpu_batches := none }

/-- The conversation of the spec's worked example, with the generation
target as a trailing null-content assistant turn. -/
def exMessages : Messages := [⟨"user", some ("2+2?")⟩, ⟨"assistant", none⟩]

/-- Arguments with a single returned sequence, used for concrete
instantiations. -/
def exArgsOne : SamplingArgs :=
  { system := none, num_return_sequences := 1, n_best_to_keep := 1,
    easy_query_threshold := 1, output_dir := "output", file_stem := "f",
    override_exist_file := false, num_sampling_per_gpu_batch_size := 1,
    num_sampling_per_gpu_batches := none }

/-- Arguments matching the spec's easy-query example:
`num_return_sequences = 4`, `easy_query_threshold = 0.5`. -/
def exArgsFour : SamplingArgs :=
  { system := none, num_return_sequences := 4, n_best_to_keep := 1,
    easy_query_threshold := 1 / 2, output_dir := "output", file_stem := "f",
    override_exist_file := false, num_sampling_per_gpu_batch_size := 1,
    num_sampling_per_gpu_batches := none }

/-- A concrete order-preserving engine oracle. -/
def exEngine : Messages → String := fun _ => "resp"

/-- A one-record store for concrete instantiations of the heap model. -/
def exStore : Store := { cells := [[⟨"user", some ("q")⟩]] }

/-- Holds when `s2` extends `s`: the original cells are an unchanged initial segment. -/
def storeExtends (s s2 : Store) : Prop := ∃ t, s2.cells = s.cells ++ t

/-! ## Helper lemmas -/

theorem listMin_le_of_mem : ∀ {l : List ℚ} {x : ℚ}, x ∈ l → listMin l ≤ x := by
  intro l
  induction l with
  | nil => intro x h; exact absurd h (List.not_mem_nil x)
  | cons a t ih =>
    intro x h
    cases t with
    | nil =>
      have hx : x = a := by simpa using h
      simp [listMin, hx]
    | cons b u =>
      simp only [listMin]
      rcases List.mem_cons.mp h with rfl | hx
      · exact min_le_left _ _
      · exact le_trans (min_le_right _ _) (ih hx)

theorem le_listMax_of_mem : ∀ {l : List ℚ} {x : ℚ}, x ∈ l → x ≤ listMax l := by
  intro l
  induction l with
  | nil => intro x h; exact absurd h (List.not_mem_nil x)
  | cons a t ih =>
    intro x h
    cases t with
    | nil =>
      have hx : x = a := by simpa using h
      simp [listMax, hx]
    | cons b u =>
      simp only [listMax]
      rcases List.mem_cons.mp h with rfl | hx
      · exact le_max_left _ _
      · exact le_trans (ih hx) (le_max_right _ _)

theorem listMin_mem : ∀ {l : List ℚ}, l ≠ [] → listMin l ∈ l := by
  intro l
  induction l with
  | nil => intro h; exact absurd rfl h
  | cons a t ih =>
    intro _
    cases t with
    | nil => simp [listMin]
    | cons b u =>
      simp only [listMin]
      rcases min_cases a (listMin (b :: u)) with ⟨he, _⟩ | ⟨he, _⟩
      · rw [he]; exact List.mem_cons_self _ _
      · rw [he]; exact List.mem_cons_of_mem _ (ih (by simp))

theorem listMax_mem : ∀ {l : List ℚ}, l ≠ [] → listMax l ∈ l := by
  intro l
  induction l with
  | nil => intro h; exact absurd rfl h
  | cons a t ih =>
    intro _
    cases t with
    | nil => simp [listMax]
    | cons b u =>
      simp only [listMax]
      rcases max_cases a (listMax (b :: u)) with ⟨he, _⟩ | ⟨he, _⟩
      · rw [he]; exact List.mem_cons_self _ _
      · rw [he]; exact List.mem_cons_of_mem _ (ih (by simp))

theorem all_eq_of_listMin_eq_listMax {l : List ℚ} (h : listMin l = listMax l) :
    ∀ x ∈ l, x = listMin l :=
  fun _ hx => le_antisymm (h ▸ le_listMax_of_mem hx) (listMin_le_of_mem hx)

theorem listMin_eq_of_all_eq {l : List ℚ} {v : ℚ} (hne : l ≠ [])
    (h : ∀ x ∈ l, x = v) : listMin l = v :=
  h _ (listMin_mem hne)

theorem listMax_eq_of_all_eq {l : List ℚ} {v : ℚ} (hne : l ≠ [])
    (h : ∀ x ∈ l, x = v) : listMax l = v :=
  h _ (listMax_mem hne)

theorem normalize_eq_map_of_lt {arr : List ℚ} (h : listMin arr < listMax arr) :
    normalize arr =
      arr.map (fun x => (x - listMin arr) / (listMax arr - listMin arr + 1 / 100000)) := by
  simp only [normalize]
  rw [if_neg (ne_of_lt h)]

theorem normalize_of_all_eq {arr : List ℚ} {v : ℚ} (hne : arr ≠ [])
    (h : ∀ x ∈ arr, x = v) :
    normalize arr = arr.map (fun _ => if v = 0 then 0 else min 1 v) := by
  have hmin := listMin_eq_of_all_eq hne h
  have hmax := listMax_eq_of_all_eq hne h
  simp only [normalize]
  rw [if_pos (hmin.trans hmax.symm), hmin]
  split_ifs with hv <;> simp [hv]

theorem getD_map_lt {α β : Type} (f : α → β) {l : List α} {k : Nat}
    (h : k < l.length) (d : β) (d2 : α) : (l.map f).getD k d = f (l.getD k d2) := by
  rw [List.getD_eq_getElem _ _ (by simpa using h), List.getD_eq_getElem _ _ h,
    List.getElem_map]

theorem getD_mem_of_lt {α : Type} {l : List α} {k : Nat} (h : k < l.length) (d : α) :
    l.getD k d ∈ l := by
  rw [List.getD_eq_getElem _ _ h]
  exact List.getElem_mem _

/-! ## Claim theorems -/

/-- C3 counterexample: the claim states that whenever `max > min`, the max
element is mapped to approximately `1/(1+1e-5)` (≈ 0.99999).  On the
concrete input `[0, 1/10000]` (whose max is strictly above its min) the
source's `normalize` maps the max element to
`(1/10000)/(1/10000 + 1/100000) = 10/11 ≈ 0.909`, which is further than
`1/100` away from `1/(1+1e-5) = 100000/100001`: the "max maps to
≈ 1/(1+1e-5)" part of the claim is false. -/
theorem c3_counterexample_max_image :
    listMin [0, (1 : ℚ) / 10000] < listMax [0, (1 : ℚ) / 10000]
    ∧ (normalize [0, (1 : ℚ) / 10000]).getD 1 0 = 10 / 11
    ∧ 1 / 100 < (100000 / 100001 : ℚ) - (normalize [0, (1 : ℚ) / 10000]).getD 1 0 := by
  refine ⟨by norm_num [listMin, listMax], ?_, ?_⟩ <;>
    norm_num [normalize, listMin, listMax]

/-- C3 (amended): for any input with `max > min`, `normalize` is exactly
the pointwise map `x ↦ (x - min) / (max - min + 1e-5)`; all outputs lie in
`[0, 1)` (hence in `[0,1]`), elements equal to the min map to `0`, and
elements equal to the max map to `(max - min)/(max - min + 1e-5)` — which
equals `1/(1+1e-5)` only when `max - min = 1`, not in general.  For an
all-equal input of value `v` the output is the constant array `0.0` when
`v = 0` and `min 1 v` otherwise. -/
theorem c3_normalize_minmax_scaling :
    (∀ arr : List ℚ, listMin arr < listMax arr →
      normalize arr =
          arr.map (fun x => (x - listMin arr) / (listMax arr - listMin arr + 1 / 100000))
        ∧ (∀ i, i < arr.length →
            (normalize arr).getD i 0 =
              (arr.getD i 0 - listMin arr) / (listMax arr - listMin arr + 1 / 100000))
        ∧ (∀ i, i < arr.length →
            0 ≤ (normalize arr).getD i 0 ∧ (normalize arr).getD i 0 < 1)
        ∧ (∀ i, i < arr.length → arr.getD i 0 = listMin arr →
            (normalize arr).getD i 0 = 0)
        ∧ (∀ i, i < arr.length → arr.getD i 0 = listMax arr →
            (normalize arr).getD i 0 =
              (listMax arr - listMin arr) / (listMax arr - listMin arr + 1 / 100000)))
    ∧ (∀ (arr : List ℚ) (v : ℚ), arr ≠ [] → (∀ x ∈ arr, x = v) →
        normalize arr = arr.map (fun _ => if v = 0 then 0 else min 1 v)) := by
  constructor
  · intro arr h
    have hden : (0 : ℚ) < listMax arr - listMin arr + 1 / 100000 := by
      have : (0 : ℚ) < listMax arr - listMin arr := sub_pos.mpr h
      linarith
    have hmap := normalize_eq_map_of_lt h
    have hlen : (normalize arr).length = arr.length := by
      rw [hmap, List.length_map]
    have hgetD : ∀ i, i < arr.length →
        (normalize arr).getD i 0 =
          (arr.getD i 0 - listMin arr) / (listMax arr - listMin arr + 1 / 100000) := by
      intro i hi
      rw [hmap, getD_map_lt _ hi 0 0]
    refine ⟨hmap, hgetD, ?_, ?_, ?_⟩
    · intro i hi
      rw [hgetD i hi]
      have hmem : arr.getD i 0 ∈ arr := getD_mem_of_lt hi 0
      have h1 : listMin arr ≤ arr.getD i 0 := listMin_le_of_mem hmem
      have h2 : arr.getD i 0 ≤ listMax arr := le_listMax_of_mem hmem
      constructor
      · exact div_nonneg (by linarith) (le_of_lt hden)
      · rw [div_lt_one hden]; linarith
    · intro i hi he
      rw [hgetD i hi, he, sub_self, zero_div]
    · intro i hi he
      rw [hgetD i hi, he]
  · intro arr v hne h
    exact normalize_of_all_eq hne h

/-- C3 witness: the amended theorem applied to the concrete input
`[0, 1/2]`, whose min maps to 0 and whose max maps to
`(1/2) / (1/2 + 1e-5) = 50000/50001`. -/
theorem c3_normalize_minmax_scaling_witness :
    normalize [0, (1 : ℚ) / 2] = [0, 50000 / 50001] := by
  have h := (c3_normalize_minmax_scaling.1 [0, (1 : ℚ) / 2]
    (by norm_num [listMin, listMax])).1
  rw [h]
  norm_num [listMin, listMax]

/-- C1: the claim says the negative (rejected) example is the element with
the single lowest combined score, and that on the spec's worked example
(outcome rewards `[1, 0, 1]`, process rewards `[0.8, 0.2, 1.0]`, process
threshold `0.5`, `n_best_to_keep = 1`) the emitted pair is
chosen = "4" (ground truth), rejected = "5" (candidate 2, index 1).
The source instead sets `neg_index = np.argsort(score)[::-1][0]`
(line 174-175), the index of the HIGHEST combined score.  This theorem
evaluates the code at the worked example: index 1 carries the strictly
lowest combined score, yet the selection returns `neg_index = 2` (the
ground-truth slot), and the emitted pair is chosen = "4",
rejected = "4" — the ground truth is rejected against itself, and "5" is
rejected nowhere. -/
theorem c1_code_rejects_highest_scored_element :
    (combinedScore (normalize [4/5, 1/5, 1]) (normalize [1, 0, 1])).getD 1 0 <
        (combinedScore (normalize [4/5, 1/5, 1]) (normalize [1, 0, 1])).getD 0 0
    ∧ (combinedScore (normalize [4/5, 1/5, 1]) (normalize [1, 0, 1])).getD 0 0 <
        (combinedScore (normalize [4/5, 1/5, 1]) (normalize [1, 0, 1])).getD 2 0
    ∧ (getReward [4/5, 1/5, 1] (some (1/2))).2 = [true, false, true]
    ∧ (rankAndSelect (normalize [4/5, 1/5, 1]) (normalize [1, 0, 1])
        [true, false, true] 1).neg_index = 2
    ∧ doSampleRecord exArgs exMessages ["4", "5"] "4" [1, 0, 1] [4/5, 1/5, 1]
        = Except.ok [{ messages := [⟨"user", some ("2+2?")⟩, ⟨"assistant", some ("4")⟩],
                       rejected_response := "4" }] := by
  refine ⟨?_, ?_, ?_, ?_, ?_⟩ <;>
    norm_num [doSampleRecord, getReward, normalize, listMin, listMax, rankAndSelect,
      combinedScore, argsortAsc, List.insertionSort, List.orderedInsert, List.range,
      List.range.loop, truncInt, setLastContent, exArgs, exMessages]

/-- C6: the claim says that when the worker's output file exists and
`override_exist_file` is false, running the sampler is a silent no-op with
no exception.  The early-return inside `run_sampling` (lines 195-196) does
behave that way, but `run` (line 215) first calls
`os.makedirs(self.args.output_dir)` with `exist_ok` left at its default
`False` — and `__init__` (line 60) has already created that directory, so
every call of `run` raises `FileExistsError` before the skip is reached.
Evaluated here on an initially empty file system. -/
theorem c6_run_always_raises_file_exists :
    runFS exArgs ("lines") (initEffect exArgs { dirs := [], files := [] })
        = Except.error ("FileExistsError")
    ∧ run_samplingFS exArgs ("lines")
        { dirs := ["output"],
          files := [(pathJoin ("output") ("f_sampling.jsonl"), "old")] }
        = { dirs := ["output"],
            files := [(pathJoin ("output") ("f_sampling.jsonl"), "old")] } := by
  constructor <;>
    simp [runFS, initEffect, makedirsExistOk, makedirs, run_samplingFS, fileExists,
      pathJoin, exArgs]

/-- C7: the claim says the slice is processed in contiguous sub-batches of
size `num_sampling_per_gpu_batch_size`, with
`min(requested, slice_len / size)` sub-batches.  The iteration *count*
matches (lines 201-203), but the index expression at lines 207-208 is
`dataset[batches*_index, batches*(_index+1)]`: the sub-batch *count* is
used as the stride, and the comma makes the subscript a tuple of two row
positions rather than a slice of `size` rows.  Evaluated at slice length
8, size 2, no requested count: 4 iterations are run, but iteration 1
requests the row pair `(4, 8)` — row 8 is already out of range — instead
of the claimed contiguous rows `[2, 4)`. -/
theorem c7_sub_batch_indexing_uses_batch_count :
    effectiveBatches (some 3) (totalIters 8 2) = min 3 4
    ∧ effectiveBatches (some 7) (totalIters 8 2) = min 7 4
    ∧ effectiveBatches none (totalIters 8 2) = 4
    ∧ runSamplingAccesses 8 2 none = [(0, 4), (4, 8), (8, 12), (12, 16)]
    ∧ subBatchIndexPair 4 1 ≠ (2, 4)
    ∧ 8 ≤ (subBatchIndexPair 4 1).2 := by
  refine ⟨?_, ?_, ?_, ?_, ?_, ?_⟩ <;> decide

/-- C8: the claim says exactly one child process is spawned per device
group (`NPROC_PER_NODE`), each with a valid disjoint device range and
dataset shard.  The loop header at line 226 is
`for proc in range(0, dev_count, )`: one child is spawned per *device*.
Evaluated at 8 devices and `NPROC_PER_NODE = 2`: 8 children are spawned,
not 2; child 2 is assigned GPUs `[8, 9, 10, 11]`, which do not exist, and
`DATA_RANGE = (2, 2)`, a shard index equal to the shard count, whose
dataset selection (lines 116-117) on a 10-row dataset is rows
`[10, …, 14]`, all out of range. -/
theorem c8_spawns_one_child_per_device :
    (spawnChildren 8 2).length = 8
    ∧ ¬ (spawnChildren 8 2).length = 2
    ∧ (spawnChildren 8 2).getD 2 ⟨0, [], (0, 0)⟩
        = { procIndex := 2, gpus := [8, 9, 10, 11], dataRange := (2, 2) }
    ∧ ((spawnChildren 8 2).getD 2 ⟨0, [], (0, 0)⟩).gpus.all (fun g => decide (8 ≤ g)) = true
    ∧ datasetShard 10 2 2 = [10, 11, 12, 13, 14]
    ∧ (datasetShard 10 2 2).all (fun i => decide (10 ≤ i)) = true := by
  refine ⟨?_, ?_, ?_, ?_, ?_, ?_⟩ <;> decide

theorem getReward_fst (arr : List ℚ) (th : Option ℚ) :
    (getReward arr th).1 = normalize arr := rfl

/-- When does the normalized array contain no positive entry?  Exactly when
the raw array is constant with value ≤ 0. -/
theorem normalize_no_pos_iff {arr : List ℚ} (hne : arr ≠ []) :
    (¬ ∃ s ∈ normalize arr, 0 < s) ↔
      ((∀ x ∈ arr, x = listMin arr) ∧ listMin arr ≤ 0) := by
  constructor
  · intro hno
    by_cases hall : ∀ x ∈ arr, x = listMin arr
    · refine ⟨hall, ?_⟩
      by_contra hpos
      push_neg at hpos
      have hconst := normalize_of_all_eq hne hall
      have hmem : (if listMin arr = 0 then (0 : ℚ) else min 1 (listMin arr)) ∈ normalize arr := by
        rw [hconst]
        exact List.mem_map_of_mem _ (listMin_mem hne)
      exact hno ⟨_, hmem, by rw [if_neg (by linarith)]; exact lt_min one_pos hpos⟩
    · exfalso
      push_neg at hall
      obtain ⟨x, hx, hxne⟩ := hall
      have hlt : listMin arr < listMax arr :=
        lt_of_lt_of_le (lt_of_le_of_ne (listMin_le_of_mem hx) (Ne.symm hxne))
          (le_listMax_of_mem hx)
      have hsub : (0 : ℚ) < listMax arr - listMin arr := sub_pos.mpr hlt
      refine hno ⟨(listMax arr - listMin arr) / (listMax arr - listMin arr + 1 / 100000), ?_, ?_⟩
      · rw [normalize_eq_map_of_lt hlt]
        exact List.mem_map_of_mem _ (listMax_mem hne)
      · exact div_pos hsub (by linarith)
  · rintro ⟨hall, hle⟩ ⟨s, hs, hpos⟩
    rw [normalize_of_all_eq hne hall] at hs
    obtain ⟨x, _, hxeq⟩ := List.mem_map.mp hs
    rw [← hxeq] at hpos
    split_ifs at hpos with h0
    · exact lt_irrefl 0 hpos
    · have : min 1 (listMin arr) = listMin arr := min_eq_right (by linarith)
      rw [this] at hpos
      linarith

/-- If the raw array has a positive entry, so does the normalized array. -/
theorem normalize_pos_of_pos {arr : List ℚ} (h : ∃ x ∈ arr, 0 < x) :
    ∃ y ∈ normalize arr, 0 < y := by
  obtain ⟨x, hx, hxpos⟩ := h
  have hne : arr ≠ [] := List.ne_nil_of_mem hx
  by_contra hno
  obtain ⟨hall, hle⟩ := (normalize_no_pos_iff hne).mp hno
  have := hall x hx
  linarith [this ▸ hxpos]

/-- The guard of line 169 fires exactly when the normalized orm scores have
no positive element. -/
theorem doSampleRecord_eq_error {args : SamplingArgs} {m : Messages}
    {bd : List String} {gt : String} {ormRaw prmRaw : List ℚ}
    (h : ¬ ∃ s ∈ (getReward ormRaw none).1, 0 < s) :
    doSampleRecord args m bd gt ormRaw prmRaw = Except.error () := by
  have hany : ((getReward ormRaw none).1.any fun s => decide (0 < s)) = false := by
    rw [List.any_eq_false]
    intro x hx
    simp only [decide_eq_true_eq]
    exact fun hpos => h ⟨x, hx, hpos⟩
  simp [doSampleRecord, hany]

theorem doSampleRecord_ok_of_normalized_pos {args : SamplingArgs} {m : Messages}
    {bd : List String} {gt : String} {ormRaw prmRaw : List ℚ}
    (h : ∃ s ∈ (getReward ormRaw none).1, 0 < s) :
    ∃ pairs, doSampleRecord args m bd gt ormRaw prmRaw = Except.ok pairs := by
  obtain ⟨s, hs, hpos⟩ := h
  have hany : ((getReward ormRaw none).1.any fun s => decide (0 < s)) = true :=
    List.any_eq_true.mpr ⟨s, hs, decide_eq_true hpos⟩
  simp only [doSampleRecord, hany]
  rw [if_neg (by simp)]
  split_ifs
  · exact ⟨[], rfl⟩
  · exact ⟨_, rfl⟩

/-- C4 counterexample: the claim says that when no element achieves a
positive outcome-reward score the scoring operation raises.  With raw
outcome scores `[-5, -3]` (no positive element, checked by the first
conjunct) the record does NOT raise: line 169 tests the *normalized*
scores, and min-max normalization of any non-constant array always
produces a positive maximum (`[0, 200000/200001]` here), so the guard
passes and a pair is even emitted. -/
theorem c4_counterexample_no_raise_without_positive_score :
    (([-5, -3] : List ℚ).all (fun s => decide (s ≤ 0)) = true)
    ∧ doSampleRecord exArgsOne exMessages ["a"] "g" [-5, -3] [0, 0]
        = Except.ok [{ messages := [⟨"user", some ("2+2?")⟩, ⟨"assistant", some ("g")⟩],
                       rejected_response := "g" }] := by
  constructor
  · decide
  · norm_num [doSampleRecord, getReward, normalize, listMin, listMax, rankAndSelect,
      combinedScore, argsortAsc, List.insertionSort, List.orderedInsert, List.range,
      List.range.loop, truncInt, setLastContent, exArgsOne, exMessages]

/-- C4 (amended): the `raise` of line 169 fires exactly when the
*normalized* outcome scores contain no positive element — equivalently,
when all raw outcome scores are equal and ≤ 0.  When it fires for any
record of the batch, the whole `do_sample` call errors and returns no
pairs at all (not a per-record skip); and whenever at least one *raw*
outcome score is positive, the record does not raise. -/
theorem c4_batch_abort_on_nonpositive_normalized :
    (∀ (args : SamplingArgs) (data : List RecordData) (i₀ : Nat) (r : RecordData),
        r ∈ data → (¬ ∃ s ∈ (getReward r.ormRaw none).1, 0 < s) →
        doSampleLoop args i₀ data = Except.error ())
    ∧ (∀ (args : SamplingArgs) (m : Messages) (bd : List String) (gt : String)
        (ormRaw prmRaw : List ℚ), (∃ s ∈ ormRaw, 0 < s) →
        ∃ pairs, doSampleRecord args m bd gt ormRaw prmRaw = Except.ok pairs)
    ∧ (∀ arr : List ℚ, arr ≠ [] →
        ((¬ ∃ s ∈ normalize arr, 0 < s) ↔
          ((∀ x ∈ arr, x = listMin arr) ∧ listMin arr ≤ 0))) := by
  refine ⟨?_, ?_, ?_⟩
  · intro args data
    induction data with
    | nil => intro i₀ r hr; exact absurd hr (List.not_mem_nil r)
    | cons a t ih =>
      intro i₀ r hr hno
      rcases List.mem_cons.mp hr with rfl | hrt
      · simp only [doSampleLoop]
        rw [doSampleRecord_eq_error hno]
      · simp only [doSampleLoop]
        cases hres : doSampleRecord args a.messages a.batchDecoded
            (a.groundTruths.getD i₀ "") a.ormRaw a.prmRaw with
        | error e => cases e; rfl
        | ok ps => rw [ih (i₀ + 1) r hrt hno]
  · intro args m bd gt ormRaw prmRaw h
    exact doSampleRecord_ok_of_normalized_pos
      (by rw [getReward_fst]; exact normalize_pos_of_pos h)
  · intro arr hne
    exact normalize_no_pos_iff hne

/-- C4 witness: for a record whose raw outcome scores are the constant
`[-1, -1]` (so its normalized scores are `[-1, -1]`, with no positive
element), the whole batch errors. -/
theorem c4_batch_abort_witness :
    doSampleLoop exArgsOne 0 [⟨exMessages, ["a"], ["g"], [-1, -1], [0, 0]⟩]
      = Except.error () := by
  apply c4_batch_abort_on_nonpositive_normalized.1 exArgsOne _ 0
    ⟨exMessages, ["a"], ["g"], [-1, -1], [0, 0]⟩ (List.mem_singleton.mpr rfl)
  rw [getReward_fst]
  norm_num [normalize, listMin, listMax]

/-- Python `int()` of a nonnegative rational never exceeds any integer the
rational is below. -/
theorem truncInt_le_of_le_intCast {q : ℚ} {z : ℤ} (hq : 0 ≤ q) (h : q ≤ (z : ℚ)) :
    truncInt q ≤ z := by
  have hnum : 0 ≤ q.num := Rat.num_nonneg.mpr hq
  have hfloor : truncInt q = Int.floor q := by
    rw [truncInt, Int.tdiv_eq_ediv hnum (Int.ofNat_nonneg _), Rat.floor_def]
  rw [hfloor]
  calc Int.floor q ≤ Int.floor ((z : ℚ)) := Int.floor_le_floor h
    _ = z := Int.floor_intCast z

/-- C5 counterexample: with `num_return_sequences = 4`,
`easy_query_threshold = 0.5` and raw outcome scores `[1, 1, 1, 1, 2]`
(all five positive, so the claimed count minus one is `4 ≥ 4 × 0.5`), the
claim says the record is dropped with zero pairs.  The code instead counts
positives of the *normalized* scores `[0, 0, 0, 0, 100000/100001]` — one
positive, `1 - 1 = 0 < int(2)` — so the record is NOT dropped and emits a
pair. -/
theorem c5_counterexample_easy_query_counts_normalized :
    (([1, 1, 1, 1, 2] : List ℚ).countP (fun s => decide (0 < s)) = 5)
    ∧ ((exArgsFour.num_return_sequences : ℚ) * exArgsFour.easy_query_threshold ≤ (5 : ℚ) - 1)
    ∧ doSampleRecord exArgsFour exMessages ["a", "b", "c", "d"] "g"
        [1, 1, 1, 1, 2] [1, 1, 1, 1, 1]
        = Except.ok [{ messages := [⟨"user", some ("2+2?")⟩, ⟨"assistant", some ("g")⟩],
                       rejected_response := "g" }] := by
  refine ⟨by decide, by norm_num [exArgsFour], ?_⟩
  norm_num [doSampleRecord, getReward, normalize, listMin, listMax, rankAndSelect,
    combinedScore, argsortAsc, List.insertionSort, List.orderedInsert, List.range,
    List.range.loop, truncInt, setLastContent, exArgsFour, exMessages]

/-- C5 (amended): for every record, if the count of elements with positive
*normalized* outcome-reward score minus one is at least
`num_return_sequences × easy_query_threshold` (with a nonnegative
threshold), the record is dropped entirely: `do_sample` returns zero pairs
for it.  (The source compares against `int(...)` of the product; since the
left side is an integer, truncation only weakens the bound, so the claimed
inequality is sufficient.) -/
theorem c5_easy_query_skip_on_normalized_count :
    ∀ (args : SamplingArgs) (m : Messages) (bd : List String) (gt : String)
      (ormRaw prmRaw : List ℚ),
      0 ≤ args.easy_query_threshold →
      (args.num_return_sequences : ℚ) * args.easy_query_threshold ≤
        (((normalize ormRaw).countP (fun s => decide (0 < s)) : ℚ)) - 1 →
      doSampleRecord args m bd gt ormRaw prmRaw = Except.ok [] := by
  intro args m bd gt ormRaw prmRaw ht hcount
  have hq0 : (0 : ℚ) ≤ (args.num_return_sequences : ℚ) * args.easy_query_threshold :=
    mul_nonneg (Nat.cast_nonneg _) ht
  have hcnt1 : (1 : ℚ) ≤ ((normalize ormRaw).countP (fun s => decide (0 < s)) : ℚ) := by
    linarith
  have hcntpos : 0 < (normalize ormRaw).countP (fun s => decide (0 < s)) := by
    exact_mod_cast lt_of_lt_of_le one_pos hcnt1
  obtain ⟨x, hx, hpx⟩ := List.countP_pos_iff.mp hcntpos
  have hany : ((getReward ormRaw none).1.any fun s => decide (0 < s)) = true := by
    rw [getReward_fst]
    exact List.any_eq_true.mpr ⟨x, hx, hpx⟩
  have htr : truncInt ((args.num_return_sequences : ℚ) * args.easy_query_threshold) ≤
      ((normalize ormRaw).countP (fun s => decide (0 < s)) : ℤ) - 1 := by
    apply truncInt_le_of_le_intCast hq0
    push_cast
    linarith
  have htr2 : truncInt ((args.num_return_sequences : ℚ) * args.easy_query_threshold) ≤
      ((getReward ormRaw none).1.countP (fun s => decide (0 < s)) : ℤ) - 1 := by
    rw [getReward_fst]
    exact htr
  simp only [doSampleRecord, hany]
  rw [if_neg (by simp), if_pos htr2]

/-- C5 witness: `num_return_sequences = 4`, `easy_query_threshold = 0.5`,
raw outcome scores `[1, 1, 1, 0, 2]` whose normalization has four positive
entries (`4 - 1 = 3 ≥ 2`): the record emits zero pairs. -/
theorem c5_easy_query_skip_witness :
    doSampleRecord exArgsFour exMessages ["a", "b", "c", "d"] "g"
      [1, 1, 1, 0, 2] [1, 1, 1, 1, 1] = Except.ok [] := by
  apply c5_easy_query_skip_on_normalized_count
  · norm_num [exArgsFour]
  · norm_num [exArgsFour, normalize, listMin, listMax, List.countP_cons]

theorem getD_zipWith {α β γ : Type} (f : α → β → γ) {a : List α} {b : List β}
    {i : Nat} (ha : i < a.length) (hb : i < b.length) (d : γ) (d1 : α) (d2 : β) :
    (List.zipWith f a b).getD i d = f (a.getD i d1) (b.getD i d2) := by
  rw [List.getD_eq_getElem _ _ (by rw [List.length_zipWith]; omega),
    List.getD_eq_getElem _ _ ha, List.getD_eq_getElem _ _ hb, List.getElem_zipWith]

/-- C2: for every record, the combined score is elementwise
`process_reward_normalized + 10 × outcome_reward_normalized`; the positive
indices are exactly the first `n_best_to_keep` entries of the descending
sort of the combined scores, filtered by the process-reward threshold mask
(the index list used is a permutation of all indices, pairwise descending
in combined score); if the mask rejects all of them, the positives are
empty — and a record whose positives are empty contributes zero pairs,
with no substitute. -/
theorem c2_positive_selection :
    (∀ (prmN ormN : List ℚ) (mask : List Bool) (k : Nat),
        (∀ i, i < prmN.length → i < ormN.length →
          (combinedScore prmN ormN).getD i 0 = prmN.getD i 0 + 10 * ormN.getD i 0)
        ∧ (rankAndSelect prmN ormN mask k).pos_indexes
            = (((argsortAsc (combinedScore prmN ormN)).reverse).take k).filter
                (fun i => mask.getD i false)
        ∧ ((argsortAsc (combinedScore prmN ormN)).reverse).Perm
            (List.range (combinedScore prmN ormN).length)
        ∧ List.Pairwise
            (fun i j => (combinedScore prmN ormN).getD j 0 ≤ (combinedScore prmN ormN).getD i 0)
            ((argsortAsc (combinedScore prmN ormN)).reverse)
        ∧ ((∀ i ∈ ((argsortAsc (combinedScore prmN ormN)).reverse).take k,
              mask.getD i false = false) →
            (rankAndSelect prmN ormN mask k).pos_indexes = []))
    ∧ (∀ (args : SamplingArgs) (m : Messages) (bd : List String) (gt : String)
        (ormRaw prmRaw : List ℚ) (pairs : List PrefPair),
        doSampleRecord args m bd gt ormRaw prmRaw = Except.ok pairs →
        (rankAndSelect (getReward prmRaw none).1 (getReward ormRaw none).1
            (getReward prmRaw none).2 args.n_best_to_keep).pos_indexes = [] →
        pairs = []) := by
  constructor
  · intro prmN ormN mask k
    haveI hTotal : IsTotal Nat
        (fun i j => (combinedScore prmN ormN).getD i 0 ≤ (combinedScore prmN ormN).getD j 0) :=
      ⟨fun a b => le_total _ _⟩
    haveI hTrans : IsTrans Nat
        (fun i j => (combinedScore prmN ormN).getD i 0 ≤ (combinedScore prmN ormN).getD j 0) :=
      ⟨fun a b c hab hbc => le_trans hab hbc⟩
    refine ⟨?_, rfl, ?_, ?_, ?_⟩
    · intro i hp ho
      unfold combinedScore
      rw [getD_zipWith _ hp ho 0 0 0]
      ring
    · exact (List.reverse_perm _).trans (List.perm_insertionSort _ _)
    · have hs := List.sorted_insertionSort
        (fun i j => (combinedScore prmN ormN).getD i 0 ≤ (combinedScore prmN ormN).getD j 0)
        (List.range (combinedScore prmN ormN).length)
      rw [List.Sorted] at hs
      exact List.pairwise_reverse.mpr hs
    · intro hall
      have : (rankAndSelect prmN ormN mask k).pos_indexes
          = (((argsortAsc (combinedScore prmN ormN)).reverse).take k).filter
              (fun i => mask.getD i false) := rfl
      rw [this, List.filter_eq_nil_iff]
      intro a ha
      rw [hall a ha]
      exact Bool.false_ne_true
  · intro args m bd gt ormRaw prmRaw pairs hok hpos
    simp only [doSampleRecord] at hok
    split_ifs at hok
    · exact (Except.ok.inj hok).symm
    · rw [hpos] at hok
      simpa using (Except.ok.inj hok).symm

/-- C2 witness: with an all-false mask, the top-1 positive index of a
concrete two-element score pair is filtered out and the positives are
empty. -/
theorem c2_positive_selection_witness :
    (rankAndSelect [(1 : ℚ), 0] [0, 1] [false, false] 1).pos_indexes = [] := by
  apply (c2_positive_selection.1 [(1 : ℚ), 0] [0, 1] [false, false] 1).2.2.2.2
  intro i _
  rcases i with _ | (_ | i) <;> rfl

theorem length_buildRequests (args : SamplingArgs) (data : List Messages) :
    (buildRequests args data).length = data.length * args.num_return_sequences := by
  induction data with
  | nil => simp [buildRequests]
  | cons r t ih =>
    simp only [buildRequests, List.flatMap_cons, List.length_append,
      List.length_replicate] at ih ⊢
    rw [ih, List.length_cons, Nat.succ_mul]
    ring

theorem buildRequests_getD {args : SamplingArgs} {data : List Messages} {i j : Nat}
    (hi : i < data.length) (hj : j < args.num_return_sequences) :
    (buildRequests args data).getD (i * args.num_return_sequences + j) []
      = buildInferMessages args (data.getD i []) := by
  induction data generalizing i with
  | nil => exact absurd hi (by simp)
  | cons r t ih =>
    cases i with
    | zero =>
      simp only [buildRequests, List.flatMap_cons]
      rw [Nat.zero_mul, Nat.zero_add,
        List.getD_append _ _ _ _ (by simpa using hj),
        List.getD_eq_getElem _ _ (by simpa using hj), List.getElem_replicate]
      rfl
    | succ i2 =>
      simp only [buildRequests, List.flatMap_cons]
      have hsplit : (i2 + 1) * args.num_return_sequences + j
          = (List.replicate args.num_return_sequences (buildInferMessages args r)).length
            + (i2 * args.num_return_sequences + j) := by
        simp only [List.length_replicate]
        ring
      rw [hsplit, List.getD_append_right _ _ _ _ (Nat.le_add_right _ _),
        Nat.add_sub_cancel_left]
      have ht : i2 < t.length := by simpa using Nat.lt_of_succ_lt_succ (by simpa using hi)
      simpa [buildRequests] using ih ht

theorem getD_range {k i : Nat} (h : i < k) (d : Nat) : (List.range k).getD i d = i := by
  rw [List.getD_eq_getElem _ _ (by simpa using h), List.getElem_range]

theorem groupResponses_getD {l : List String} {n i j : Nat}
    (hi : i < l.length / n) (hj : j < n) :
    ((groupResponses l n).getD i []).getD j ("") = l.getD (i * n + j) "" := by
  unfold groupResponses
  rw [getD_map_lt _ (by simpa using hi) [] 0, getD_range hi 0,
    getD_map_lt _ (by simpa using hj) "" 0, getD_range hj 0]

/-- C9: result ordering is preserved end to end in candidate generation.
Assuming the engine preserves input order (modelled: it maps each request
to its response), the `j`-th response in record `i`'s regrouped output is
the engine's response to the `j`-th request submitted for record `i`
(position `i*num_return_sequences + j` of the flattened request list),
and that request carries exactly record `i`'s prepared conversation. -/
theorem c9_order_preservation :
    ∀ (args : SamplingArgs) (data : List Messages) (engine : Messages → String) (i j : Nat),
      0 < args.num_return_sequences → i < data.length → j < args.num_return_sequences →
      ((groupResponses ((buildRequests args data).map engine)
            args.num_return_sequences).getD i []).getD j ("")
          = engine ((buildRequests args data).getD
              (i * args.num_return_sequences + j) [])
        ∧ (buildRequests args data).getD (i * args.num_return_sequences + j) []
            = buildInferMessages args (data.getD i []) := by
  intro args data engine i j hn hi hj
  have hreq := @buildRequests_getD args data i j hi hj
  have hidx : i * args.num_return_sequences + j
      < data.length * args.num_return_sequences := by
    calc i * args.num_return_sequences + j
        < i * args.num_return_sequences + args.num_return_sequences := by omega
      _ = (i + 1) * args.num_return_sequences := by ring
      _ ≤ data.length * args.num_return_sequences :=
          Nat.mul_le_mul_right _ (Nat.succ_le_of_lt hi)
  have hlen : ((buildRequests args data).map engine).length
      = data.length * args.num_return_sequences := by
    rw [List.length_map, length_buildRequests]
  refine ⟨?_, hreq⟩
  rw [groupResponses_getD (by rw [hlen, Nat.mul_div_cancel _ hn]; exact hi) hj,
    getD_map_lt engine (by rw [length_buildRequests]; exact hidx) "" []]

/-- C9 witness: one record, one candidate, a concrete engine. -/
theorem c9_order_preservation_witness :
    ((groupResponses ((buildRequests exArgsOne [[⟨"user", some ("q")⟩]]).map exEngine)
          exArgsOne.num_return_sequences).getD 0 []).getD 0 ("")
        = exEngine ((buildRequests exArgsOne [[⟨"user", some ("q")⟩]]).getD 0 [])
      ∧ (buildRequests exArgsOne [[⟨"user", some ("q")⟩]]).getD 0 []
          = buildInferMessages exArgsOne [⟨"user", some ("q")⟩] := by
  have h := c9_order_preservation exArgsOne [[⟨"user", some ("q")⟩]] exEngine 0 0
    (by decide) (by decide) (by decide)
  simpa using h

theorem getD_append_self {α : Type} (l : List α) (v d : α) :
    (l ++ [v]).getD l.length d = v := by
  rw [List.getD_append_right _ _ _ _ (le_refl _), Nat.sub_self]
  rfl

theorem set_append_self {α : Type} (l : List α) (v w : α) :
    (l ++ [v]).set l.length w = l ++ [w] := by
  induction l with
  | nil => rfl
  | cons a t ih => simp [ih]

theorem copyAndSet_cells (s : Store) (r : Ref) (f : Messages → Messages) :
    (copyAndSet s r f).1.cells = s.cells ++ [f (readRef s r)] := by
  simp only [copyAndSet, allocRef, writeRef, readRef]
  rw [getD_append_self, set_append_self]

theorem storeExtends_trans {s1 s2 s3 : Store}
    (h1 : storeExtends s1 s2) (h2 : storeExtends s2 s3) : storeExtends s1 s3 := by
  obtain ⟨t1, ht1⟩ := h1
  obtain ⟨t2, ht2⟩ := h2
  exact ⟨t1 ++ t2, by rw [ht2, ht1, List.append_assoc]⟩

theorem copyAndSet_extends (s : Store) (r : Ref) (f : Messages → Messages) :
    storeExtends s (copyAndSet s r f).1 :=
  ⟨[f (readRef s r)], copyAndSet_cells s r f⟩

theorem prepRowH_extends (args : SamplingArgs) (s : Store) (r : Ref) :
    storeExtends s (prepRowH args s r).1 :=
  copyAndSet_extends s r (applySystem args)

theorem prepRowsH_extends (args : SamplingArgs) :
    ∀ (rs : List Ref) (s : Store), storeExtends s (prepRowsH args s rs).1 := by
  intro rs
  induction rs with
  | nil => intro s; exact ⟨[], by simp [prepRowsH]⟩
  | cons r t ih =>
    intro s
    exact storeExtends_trans (prepRowH_extends args s r) (ih _)

theorem copyFillH_extends :
    ∀ (ts : List String) (s : Store) (base : Ref), storeExtends s (copyFillH s base ts).1 := by
  intro ts
  induction ts with
  | nil => intro s base; exact ⟨[], by simp [copyFillH]⟩
  | cons t rest ih =>
    intro s base
    exact storeExtends_trans (copyAndSet_extends _ _ _) (ih _ _)

theorem emitPairsH_extends :
    ∀ (ps : List String) (s : Store) (r : Ref) (negative : String),
      storeExtends s (emitPairsH s r negative ps).1 := by
  intro ps
  induction ps with
  | nil => intro s r negative; exact ⟨[], by simp [emitPairsH]⟩
  | cons p rest ih =>
    intro s r negative
    exact storeExtends_trans (copyAndSet_extends _ _ _) (ih _ _ _)

theorem scoreRecordH_extends (args : SamplingArgs) (ormM prmM : List Messages → List ℚ)
    (s : Store) (rec : HRecord) (i : Nat) (bd : List String) :
    storeExtends s (scoreRecordH args ormM prmM s rec i bd).1 := by
  simp only [scoreRecordH]
  split_ifs
  all_goals
    first
      | exact storeExtends_trans (copyAndSet_extends _ _ _) (copyFillH_extends _ _ _)
      | exact storeExtends_trans
          (storeExtends_trans (copyAndSet_extends _ _ _) (copyFillH_extends _ _ _))
          (emitPairsH_extends _ _ _ _)

theorem scoreLoopH_extends (args : SamplingArgs) (ormM prmM : List Messages → List ℚ) :
    ∀ (items : List (HRecord × List String)) (s : Store) (i : Nat),
      storeExtends s (scoreLoopH args ormM prmM s i items).1 := by
  intro items
  induction items with
  | nil => intro s i; exact ⟨[], by simp [scoreLoopH]⟩
  | cons it rest ih =>
    intro s i
    obtain ⟨rec, group⟩ := it
    simp only [scoreLoopH]
    cases hone : (scoreRecordH args ormM prmM s rec i group).2 with
    | error e =>
      exact scoreRecordH_extends args ormM prmM s rec i group
    | ok ps =>
      cases hnext : (scoreLoopH args ormM prmM
          (scoreRecordH args ormM prmM s rec i group).1 (i + 1) rest).2 with
      | error e =>
        exact storeExtends_trans (scoreRecordH_extends args ormM prmM s rec i group) (ih _ _)
      | ok qs =>
        exact storeExtends_trans (scoreRecordH_extends args ormM prmM s rec i group) (ih _ _)

theorem doSampleH_extends (args : SamplingArgs) (engine : Messages → String)
    (ormM prmM : List Messages → List ℚ) (s : Store) (records : List HRecord) :
    storeExtends s (doSampleH args engine ormM prmM s records).1 := by
  simp only [doSampleH]
  exact storeExtends_trans (prepRowsH_extends _ _ _) (scoreLoopH_extends _ _ _ _ _ _)

theorem readRef_of_extends {s s2 : Store} {r : Ref}
    (h : storeExtends s s2) (hr : r < s.cells.length) : readRef s2 r = readRef s r := by
  obtain ⟨t, ht⟩ := h
  rw [readRef, readRef, ht, List.getD_append _ _ _ _ hr]

/-- C10: `do_sample` never mutates its input batch.  In the heap model
every in-place edit of the source acts on a freshly deep-copied cell
(lines 123, 133, 152, 158, 162, 187), so after the call every cell that
existed before — in particular each input record's `messages` list,
trailing null-content assistant turn included — reads back unchanged. -/
theorem c10_do_sample_preserves_input :
    ∀ (args : SamplingArgs) (engine : Messages → String)
      (ormM prmM : List Messages → List ℚ) (s : Store) (records : List HRecord) (r : Ref),
      r < s.cells.length →
      readRef (doSampleH args engine ormM prmM s records).1 r = readRef s r := by
  intro args engine ormM prmM s records r hr
  exact readRef_of_extends (doSampleH_extends args engine ormM prmM s records) hr

/-- C10 witness: a one-record store (a conversation held at ref 0) reads
back unchanged after a full concrete `do_sample` run. -/
theorem c10_do_sample_preserves_input_witness :
    readRef (doSampleH exArgsOne exEngine (fun l => l.map (fun _ => 1))
        (fun l => l.map (fun _ => 1)) exStore [⟨0, ["g"]⟩]).1 0
      = [⟨"user", some ("q")⟩] := by
  have h := c10_do_sample_preserves_input exArgsOne exEngine
    (fun l => l.map (fun _ => 1)) (fun l => l.map (fun _ => 1)) exStore [⟨0, ["g"]⟩] 0
    (by decide)
  exact h.trans rfl

end SamplingPy
